import Mathlib

/-!
Verification of the annotation-workflow controller of the `acronym`
data-annotation web app.

The JavaScript sources are shallowly embedded:

* JS strings are modelled as lists of UTF-16 code units (`List Nat`),
  matching the unit-by-unit behaviour of `btoa`, `atob`,
  `encodeURIComponent`, `decodeURIComponent`, `JSON.stringify` and
  `JSON.parse` that the schedule codec in
  `data_annotation/src/DataAnnotation.js` composes.
* JSON values are a mutual inductive (`Json`/`JsonList`/`JsonFields`)
  with an executable serializer and a fuel-indexed recursive-descent
  parser; JSON numbers are restricted to integers, the only numeric
  values the schedule payloads contain.
* The hook-driven control flow of the React components is embedded as
  pure functions from the relevant state (schedule, query parameters,
  network responses) to an inductive outcome type, one constructor per
  observable effect (navigation, alert, state update, crash).
-/

/-! ## Code-unit utilities -/

/-- Code units of a Lean string literal, used to write concrete JS strings. -/
def lit (s : String) : List Nat :=
  s.toList.map Char.toNat

/-- JSON whitespace code units (space, tab, LF, CR) skipped by `JSON.parse`. -/
def isWsCode (c : Nat) : Bool :=
  c = 32 || c = 9 || c = 10 || c = 13

/-- Drop leading JSON whitespace, as `JSON.parse` does between tokens. -/
def skipWs : List Nat → List Nat
  | [] => []
  | c :: t => if isWsCode c then skipWs t else c :: t

/-- Decimal digit predicate on code units. -/
def isDigitCode (c : Nat) : Bool :=
  decide (48 ≤ c ∧ c ≤ 57)

/-- Whether a code-unit list starts with a decimal digit. -/
def headDigit : List Nat → Bool
  | [] => false
  | c :: _ => isDigitCode c

/-- Decimal digits of a natural number, most significant first, as code
units; the fuel argument (any value `≥ n`) makes the recursion structural
so that the definition evaluates by kernel reduction. -/
def natDigitsGo : Nat → Nat → List Nat
  | 0, n => [48 + n % 10]
  | f + 1, n => if n < 10 then [48 + n] else natDigitsGo f (n / 10) ++ [48 + n % 10]

/-- Decimal representation of a natural number as code units. -/
def natDigits (n : Nat) : List Nat :=
  natDigitsGo n n

/-- Code units `JSON.stringify` emits for an integer (the only number shape
the schedule payloads contain). -/
def intCodes (n : Int) : List Nat :=
  if n < 0 then 45 :: natDigits n.natAbs else natDigits n.toNat

/-- Consume a maximal run of decimal digits, folding them onto `acc`,
exactly as a recursive-descent number parser does. -/
def parseDigitsAux : List Nat → Nat → Nat × List Nat
  | [], acc => (acc, [])
  | c :: rest, acc =>
    if 48 ≤ c ∧ c ≤ 57 then parseDigitsAux rest (acc * 10 + (c - 48))
    else (acc, c :: rest)

/-- Value of a digit-code list, most significant first. -/
def digitsVal (ds : List Nat) : Nat :=
  ds.foldl (fun a c => a * 10 + (c - 48)) 0

/-- Value of an upper- or lower-case hexadecimal digit code unit. -/
def hexDigitVal (c : Nat) : Option Nat :=
  if 48 ≤ c ∧ c ≤ 57 then some (c - 48)
  else if 65 ≤ c ∧ c ≤ 70 then some (c - 55)
  else if 97 ≤ c ∧ c ≤ 102 then some (c - 87)
  else none

/-- Upper-case hexadecimal digit code unit, as `encodeURIComponent` emits. -/
def hexDigitUpper (n : Nat) : Nat :=
  if n < 10 then 48 + n else 55 + n

/-- Lower-case hexadecimal digit code unit, as `JSON.stringify` emits in
control-character escapes. -/
def hexDigitLower (n : Nat) : Nat :=
  if n < 10 then 48 + n else 87 + n

/-- Value of a two-hex-digit pair. -/
def hexPairVal (h1 h2 : Nat) : Option Nat := do
  let a ← hexDigitVal h1
  let b ← hexDigitVal h2
  pure (a * 16 + b)

/-- Value of a four-hex-digit group, as in a JSON `\uXXXX` escape. -/
def hexQuadVal (h1 h2 h3 h4 : Nat) : Option Nat := do
  let a ← hexDigitVal h1
  let b ← hexDigitVal h2
  let c ← hexDigitVal h3
  let d ← hexDigitVal h4
  pure (((a * 16 + b) * 16 + c) * 16 + d)

/-! ## Base64 (`btoa` / `atob`)

`btoa` encodes a JS string whose code units are all `≤ 255` and throws
otherwise; `atob` implements the WHATWG forgiving-base64 decode (strip
ASCII whitespace, allow a final group of 2 or 3 sextets with or without
`=` padding, reject any character outside the alphabet). -/

/-- The base64 alphabet as code units, indexed by sextet value. -/
def b64Alphabet : List Nat :=
  lit "ABCDEFGHIJKLMNOPQRSTUVWXYZabcdefghijklmnopqrstuvwxyz0123456789+/"

/-- Code unit of a sextet value. -/
def sixToChar (n : Nat) : Nat :=
  b64Alphabet.getD n 0

/-- Sextet value of a code unit, `none` when outside the alphabet. -/
def charToSix (c : Nat) : Option Nat :=
  b64Alphabet.indexOf? c

/-- Grouped base64 encoding of a byte list, with `=` padding, mirroring
`btoa` on the code units of its argument. -/
def btoaGroups : List Nat → List Nat
  | [] => []
  | [b1] => [sixToChar (b1 / 4), sixToChar (b1 % 4 * 16), 61, 61]
  | [b1, b2] =>
    [sixToChar (b1 / 4), sixToChar (b1 % 4 * 16 + b2 / 16), sixToChar (b2 % 16 * 4), 61]
  | b1 :: b2 :: b3 :: rest =>
    sixToChar (b1 / 4) :: sixToChar (b1 % 4 * 16 + b2 / 16) ::
      sixToChar (b2 % 16 * 4 + b3 / 64) :: sixToChar (b3 % 64) :: btoaGroups rest

/-- Model of `btoa`: fails (throws `InvalidCharacterError`) iff some code
unit of the input exceeds 255. -/
def btoaCodes (s : List Nat) : Option (List Nat) :=
  if s.all (fun c => c ≤ 255) then some (btoaGroups s) else none

/-- ASCII whitespace stripped by forgiving-base64 (tab, LF, FF, CR, space). -/
def isB64Ws (c : Nat) : Bool :=
  c = 9 || c = 10 || c = 12 || c = 13 || c = 32

/-- Strip one or two trailing `=` padding characters. -/
def stripPad (l : List Nat) : List Nat :=
  match l.reverse with
  | [] => l
  | a :: t =>
    if a = 61 then
      match t with
      | b :: t2 => if b = 61 then t2.reverse else t.reverse
      | [] => t.reverse
    else l

/-- Reassemble bytes from a sextet list whose length is 0, 2 or 3 mod 4. -/
def sextetsToBytes : List Nat → List Nat
  | s1 :: s2 :: s3 :: s4 :: rest =>
    (s1 * 4 + s2 / 16) :: (s2 % 16 * 16 + s3 / 4) :: (s3 % 4 * 64 + s4) ::
      sextetsToBytes rest
  | [s1, s2] => [s1 * 4 + s2 / 16]
  | [s1, s2, s3] => [s1 * 4 + s2 / 16, s2 % 16 * 16 + s3 / 4]
  | _ => []

/-- Model of `atob` (WHATWG forgiving-base64 decode): remove ASCII
whitespace, strip `=` padding when the length is a multiple of four,
reject a leftover length of 1 mod 4 and any character outside the
alphabet, then reassemble the bytes. -/
def atobCodes (s : List Nat) : Option (List Nat) :=
  let s1 := s.filter (fun c => !isB64Ws c)
  let s2 := if s1.length % 4 = 0 then stripPad s1 else s1
  if s2.length % 4 = 1 then none
  else (s2.mapM charToSix).map sextetsToBytes

/-! ### Base64 round trip -/

/-- Sextet stream of a byte list, without padding. -/
def toSextets : List Nat → List Nat
  | [] => []
  | [b1] => [b1 / 4, b1 % 4 * 16]
  | [b1, b2] => [b1 / 4, b1 % 4 * 16 + b2 / 16, b2 % 16 * 4]
  | b1 :: b2 :: b3 :: rest =>
    b1 / 4 :: (b1 % 4 * 16 + b2 / 16) :: (b2 % 16 * 4 + b3 / 64) :: b3 % 64 ::
      toSextets rest

/-- Unpadded base64 encoding. -/
def btoaNoPad (bs : List Nat) : List Nat :=
  (toSextets bs).map sixToChar

/-- Padding suffix `btoa` appends, determined by the byte count mod 3. -/
def padSuffix (bs : List Nat) : List Nat :=
  match bs.length % 3 with
  | 1 => [61, 61]
  | 2 => [61]
  | _ => []

theorem six_props : ∀ n : Fin 64,
    charToSix (sixToChar n.val) = some n.val ∧ sixToChar n.val < 128 ∧
      sixToChar n.val ≠ 61 ∧ isB64Ws (sixToChar n.val) = false := by
  decide

theorem toSextets_lt : ∀ bs, (∀ b ∈ bs, b ≤ 255) → ∀ s ∈ toSextets bs, s < 64 := by
  intro bs
  induction bs using toSextets.induct with
  | case1 => intro _ s hs; simp [toSextets] at hs
  | case2 b1 =>
    intro hb s hs
    have h1 : b1 ≤ 255 := hb b1 (by simp)
    simp [toSextets] at hs
    rcases hs with h | h <;> omega
  | case3 b1 b2 =>
    intro hb s hs
    have h1 : b1 ≤ 255 := hb b1 (by simp)
    have h2 : b2 ≤ 255 := hb b2 (by simp)
    simp [toSextets] at hs
    rcases hs with h | h | h <;> omega
  | case4 b1 b2 b3 rest ih =>
    intro hb s hs
    have h1 : b1 ≤ 255 := hb b1 (by simp)
    have h2 : b2 ≤ 255 := hb b2 (by simp)
    have h3 : b3 ≤ 255 := hb b3 (by simp)
    simp only [toSextets, List.mem_cons] at hs
    rcases hs with h | h | h | h | h
    · omega
    · omega
    · omega
    · omega
    · exact ih (fun b hbm => hb b (by simp [hbm])) s h

theorem groups_eq_noPad_pad : ∀ bs, btoaGroups bs = btoaNoPad bs ++ padSuffix bs := by
  intro bs
  induction bs using btoaGroups.induct with
  | case1 => simp [btoaGroups, btoaNoPad, toSextets, padSuffix]
  | case2 b1 => simp [btoaGroups, btoaNoPad, toSextets, padSuffix]
  | case3 b1 b2 => simp [btoaGroups, btoaNoPad, toSextets, padSuffix]
  | case4 b1 b2 b3 rest ih =>
    have hlen : (b1 :: b2 :: b3 :: rest).length % 3 = rest.length % 3 := by
      simp [List.length_cons]; omega
    simp only [btoaGroups, btoaNoPad, toSextets, List.map_cons, ih, padSuffix, hlen,
      btoaNoPad, List.cons_append, List.append_assoc]

theorem mapM_charToSix_map : ∀ l : List Nat, (∀ n ∈ l, n < 64) →
    (l.map sixToChar).mapM charToSix = some l := by
  intro l
  induction l with
  | nil => intro _; rfl
  | cons x t ih =>
    intro h
    have hx := (six_props ⟨x, h x (by simp)⟩).1
    simp only [List.map_cons, List.mapM_cons, hx, Option.pure_def, Option.bind_eq_bind,
      Option.bind_some, ih (fun n hn => h n (by simp [hn]))]
    rfl

theorem sextetsToBytes_toSextets : ∀ bs, (∀ b ∈ bs, b ≤ 255) →
    sextetsToBytes (toSextets bs) = bs := by
  intro bs
  induction bs using toSextets.induct with
  | case1 => intro _; rfl
  | case2 b1 =>
    intro hb
    have h1 : b1 ≤ 255 := hb b1 (by simp)
    simp only [toSextets, sextetsToBytes]
    congr 1
    omega
  | case3 b1 b2 =>
    intro hb
    have h1 : b1 ≤ 255 := hb b1 (by simp)
    have h2 : b2 ≤ 255 := hb b2 (by simp)
    simp only [toSextets, sextetsToBytes]
    congr 1
    · omega
    · congr 1; omega
  | case4 b1 b2 b3 rest ih =>
    intro hb
    have h1 : b1 ≤ 255 := hb b1 (by simp)
    have h2 : b2 ≤ 255 := hb b2 (by simp)
    have h3 : b3 ≤ 255 := hb b3 (by simp)
    simp only [toSextets, sextetsToBytes, ih (fun b hbm => hb b (by simp [hbm]))]
    congr 1
    · omega
    · congr 1
      · omega
      · congr 1; omega

theorem noPad_no_ws (bs : List Nat) (hb : ∀ b ∈ bs, b ≤ 255) :
    ∀ c ∈ btoaNoPad bs, isB64Ws c = false := by
  intro c hc
  simp only [btoaNoPad, List.mem_map] at hc
  obtain ⟨s, hs, rfl⟩ := hc
  exact (six_props ⟨s, toSextets_lt bs hb s hs⟩).2.2.2

theorem noPad_no_61 (bs : List Nat) (hb : ∀ b ∈ bs, b ≤ 255) :
    ∀ c ∈ btoaNoPad bs, c ≠ 61 := by
  intro c hc
  simp only [btoaNoPad, List.mem_map] at hc
  obtain ⟨s, hs, rfl⟩ := hc
  exact (six_props ⟨s, toSextets_lt bs hb s hs⟩).2.2.1

theorem stripPad_no61 (l : List Nat) (h : ∀ c ∈ l, c ≠ 61) : stripPad l = l := by
  unfold stripPad
  rcases hrev : l.reverse with _ | ⟨a, t⟩
  · rfl
  · have ha : a ∈ l := by
      rw [← List.mem_reverse, hrev]; simp
    simp [h a ha]

theorem stripPad_pad2 (x : List Nat) : stripPad (x ++ [61, 61]) = x := by
  unfold stripPad
  have hrev : (x ++ [61, 61]).reverse = 61 :: 61 :: x.reverse := by simp
  rw [hrev]
  simp

theorem stripPad_pad1 (x : List Nat) (hne : x ≠ []) (h : ∀ c ∈ x, c ≠ 61) :
    stripPad (x ++ [61]) = x := by
  unfold stripPad
  have hrev : (x ++ [61]).reverse = 61 :: x.reverse := by simp
  rw [hrev]
  rcases hx : x.reverse with _ | ⟨b, t2⟩
  · exact absurd (by simpa using congrArg List.reverse hx) hne
  · have hb : b ∈ x := by rw [← List.mem_reverse, hx]; simp
    simp only [reduceIte, h b hb, if_false]
    rw [← hx, List.reverse_reverse]

theorem toSextets_len_mod : ∀ bs : List Nat,
    (toSextets bs).length % 4 = 0 ∨ (toSextets bs).length % 4 = 2 ∨
      (toSextets bs).length % 4 = 3 := by
  intro bs
  induction bs using toSextets.induct with
  | case1 => simp [toSextets]
  | case2 b1 => simp [toSextets]
  | case3 b1 b2 => simp [toSextets]
  | case4 b1 b2 b3 rest ih =>
    simp only [toSextets, List.length_cons]
    omega

theorem toSextets_nonempty_mod2 (bs : List Nat) (h : bs.length % 3 = 2) :
    toSextets bs ≠ [] := by
  cases bs with
  | nil => simp at h
  | cons b1 t =>
    cases t with
    | nil => simp at h
    | cons b2 t2 =>
      cases t2 with
      | nil => simp [toSextets]
      | cons b3 t3 => simp [toSextets]

theorem atob_btoa (bs : List Nat) (hb : ∀ b ∈ bs, b ≤ 255) :
    atobCodes (btoaGroups bs) = some bs := by
  have hsplit := groups_eq_noPad_pad bs
  have hnws := noPad_no_ws bs hb
  have hn61 := noPad_no_61 bs hb
  have hlt := toSextets_lt bs hb
  have hfilter : (btoaGroups bs).filter (fun c => !isB64Ws c) = btoaGroups bs := by
    rw [List.filter_eq_self]
    intro c hc
    rw [hsplit, List.mem_append] at hc
    rcases hc with hc | hc
    · simp [hnws c hc]
    · unfold padSuffix at hc
      rcases h3 : bs.length % 3 with _ | _ | _ | k
      all_goals rw [h3] at hc
      · simp at hc
      · simp at hc; simp [hc, isB64Ws]
      · simp at hc; simp [hc, isB64Ws]
      · simp at hc
  have hlen4 : (btoaGroups bs).length % 4 = 0 := by
    have : ∀ l, (btoaGroups l).length % 4 = 0 := by
      intro l
      induction l using btoaGroups.induct with
      | case1 => simp [btoaGroups]
      | case2 b1 => simp [btoaGroups]
      | case3 b1 b2 => simp [btoaGroups]
      | case4 b1 b2 b3 rest ih => simp only [btoaGroups, List.length_cons]; omega
    exact this bs
  have hstrip : stripPad (btoaGroups bs) = btoaNoPad bs := by
    rw [hsplit]
    unfold padSuffix
    rcases h3 : bs.length % 3 with _ | _ | _ | k
    · simpa using stripPad_no61 (btoaNoPad bs) hn61
    · exact stripPad_pad2 (btoaNoPad bs)
    · have hne : btoaNoPad bs ≠ [] := by
        simp only [btoaNoPad, ne_eq, List.map_eq_nil_iff]
        exact toSextets_nonempty_mod2 bs h3
      exact stripPad_pad1 (btoaNoPad bs) hne hn61
    · omega
  have hmod : (btoaNoPad bs).length % 4 ≠ 1 := by
    have hlen : (btoaNoPad bs).length = (toSextets bs).length := by
      simp [btoaNoPad]
    rw [hlen]
    rcases toSextets_len_mod bs with h | h | h <;> omega
  unfold atobCodes
  simp only [hfilter, hlen4, reduceIte, hstrip, hmod, if_false]
  rw [btoaNoPad, mapM_charToSix_map (toSextets bs) hlt]
  simp [sextetsToBytes_toSextets bs hb]

/-! ## Percent-encoding (`encodeURIComponent` / `decodeURIComponent`)

`encodeURIComponent` leaves the unreserved characters
`A-Z a-z 0-9 - _ . ! ~ * ' ( )` intact and percent-encodes the UTF-8
bytes of every other character.  The schedule codec only ever applies it
to `btoa` output (the base64 alphabet plus `=`), so the decoder is
modelled for single-byte (ASCII) percent sequences; multi-byte UTF-8
sequences and surrogate pairing never arise at the call sites. -/

/-- Characters `encodeURIComponent` leaves unescaped. -/
def isUnreservedCode (c : Nat) : Bool :=
  decide (65 ≤ c ∧ c ≤ 90) || decide (97 ≤ c ∧ c ≤ 122) ||
    decide (48 ≤ c ∧ c ≤ 57) || c = 45 || c = 95 || c = 46 || c = 33 ||
    c = 126 || c = 42 || c = 39 || c = 40 || c = 41

/-- UTF-8 bytes of a code point below `0x10000`; the schedule codec only
feeds ASCII (base64 output) into the encoder, so astral code points and
surrogate pairing are out of scope. -/
def utf8BytesOfCode (c : Nat) : List Nat :=
  if c < 128 then [c]
  else if c < 2048 then [192 + c / 64, 128 + c % 64]
  else [224 + c / 4096, 128 + c / 64 % 64, 128 + c % 64]

/-- A `%XX` escape with upper-case hex digits. -/
def percentHex (b : Nat) : List Nat :=
  [37, hexDigitUpper (b / 16), hexDigitUpper (b % 16)]

/-- Encoding of one character, per `encodeURIComponent`. -/
def uriEncodeChar (c : Nat) : List Nat :=
  if isUnreservedCode c then [c] else ((utf8BytesOfCode c).map percentHex).flatten

/-- Model of `encodeURIComponent`. -/
def uriEncodeL : List Nat → List Nat
  | [] => []
  | c :: t => uriEncodeChar c ++ uriEncodeL t

/-- Model of `decodeURIComponent` on ASCII content: a `%XX` escape with
value below 128 decodes to that code unit, other characters stand for
themselves; a malformed escape fails (`URIError`).  Multi-byte UTF-8
escape sequences (values `≥ 128`) are outside the modelled domain and
map to `none`; the schedule codec never produces them. -/
def uriDecode : List Nat → Option (List Nat)
  | [] => some []
  | c :: rest =>
    if c = 37 then
      match rest with
      | h1 :: h2 :: rest2 =>
        match hexPairVal h1 h2 with
        | some b => if b < 128 then (uriDecode rest2).map (fun l => b :: l) else none
        | none => none
      | _ => none
    else (uriDecode rest).map (fun l => c :: l)

theorem unreserved_ne_37 (c : Nat) (h : isUnreservedCode c = true) : c ≠ 37 := by
  intro hc
  subst hc
  simp [isUnreservedCode] at h

theorem uriDecode_cons_plain (c : Nat) (rest : List Nat) (h : c ≠ 37) :
    uriDecode (c :: rest) = (uriDecode rest).map (fun l => c :: l) := by
  conv_lhs => rw [uriDecode.eq_def]
  simp [h]

set_option maxRecDepth 8000 in
theorem hexPair_upper : ∀ b : Fin 256,
    hexPairVal (hexDigitUpper (b.val / 16)) (hexDigitUpper (b.val % 16)) = some b.val := by
  decide

theorem uriDecode_encode (l : List Nat) (h : ∀ c ∈ l, c < 128) :
    uriDecode (uriEncodeL l) = some l := by
  induction l with
  | nil => rfl
  | cons c t ih =>
    have hc : c < 128 := h c (by simp)
    have iht := ih (fun x hx => h x (by simp [hx]))
    by_cases hu : isUnreservedCode c = true
    · have h37 := unreserved_ne_37 c hu
      simp only [uriEncodeL, uriEncodeChar, hu, reduceIte, List.singleton_append]
      simp [uriDecode_cons_plain c _ h37, iht]
    · simp only [uriEncodeL, uriEncodeChar, hu, Bool.false_eq_true, if_false,
        utf8BytesOfCode, hc, reduceIte, List.map_cons, List.map_nil, List.flatten,
        percentHex, List.append_nil, List.cons_append, List.nil_append]
      simp only [uriDecode, reduceIte]
      rw [hexPair_upper ⟨c, by omega⟩]
      simp [hc, iht]

/-- Every character `btoa` emits is ASCII. -/
theorem btoaGroups_lt_128 (bs : List Nat) (hb : ∀ b ∈ bs, b ≤ 255) :
    ∀ c ∈ btoaGroups bs, c < 128 := by
  intro c hc
  rw [groups_eq_noPad_pad bs, List.mem_append] at hc
  rcases hc with hc | hc
  · simp only [btoaNoPad, List.mem_map] at hc
    obtain ⟨s, hs, rfl⟩ := hc
    exact (six_props ⟨s, toSextets_lt bs hb s hs⟩).2.1
  · unfold padSuffix at hc
    rcases h3 : bs.length % 3 with _ | _ | _ | k
    all_goals rw [h3] at hc
    · simp at hc
    · simp at hc; omega
    · simp at hc; omega
    · simp at hc

/-! ### Decimal digit printing and parsing -/

theorem natDigitsGo_digits : ∀ f n, n ≤ f →
    ∀ c ∈ natDigitsGo f n, 48 ≤ c ∧ c ≤ 57 := by
  intro f
  induction f with
  | zero =>
    intro n hn c hc
    simp [natDigitsGo] at hc
    omega
  | succ f ih =>
    intro n hn c hc
    simp only [natDigitsGo] at hc
    split at hc
    · simp at hc; omega
    · rw [List.mem_append] at hc
      rcases hc with h | h
      · exact ih (n / 10) (by omega) c h
      · simp at h; omega

theorem natDigitsGo_head : ∀ f n, n ≤ f →
    ∃ d t, natDigitsGo f n = d :: t ∧ 48 ≤ d ∧ d ≤ 57 := by
  intro f
  induction f with
  | zero =>
    intro n hn
    refine ⟨48 + n % 10, [], by simp [natDigitsGo], by omega, by omega⟩
  | succ f ih =>
    intro n hn
    by_cases h10 : n < 10
    · exact ⟨48 + n, [], by simp [natDigitsGo, h10], by omega, by omega⟩
    · obtain ⟨d, t, heq, hd1, hd2⟩ := ih (n / 10) (by omega)
      exact ⟨d, t ++ [48 + n % 10], by simp [natDigitsGo, h10, heq], hd1, hd2⟩

theorem natDigitsGo_val : ∀ f n, n ≤ f →
    (natDigitsGo f n).foldl (fun a c => a * 10 + (c - 48)) 0 = n := by
  intro f
  induction f with
  | zero =>
    intro n hn
    simp [natDigitsGo]
    omega
  | succ f ih =>
    intro n hn
    by_cases h10 : n < 10
    · simp [natDigitsGo, h10]
    · have hdiv : n / 10 ≤ f := by omega
      simp only [natDigitsGo, h10, if_false, List.foldl_append, ih (n / 10) hdiv,
        List.foldl_cons, List.foldl_nil]
      omega

theorem parseDigitsAux_append : ∀ ds : List Nat, ∀ rest acc,
    (∀ c ∈ ds, 48 ≤ c ∧ c ≤ 57) →
    parseDigitsAux (ds ++ rest) acc =
      parseDigitsAux rest (ds.foldl (fun a c => a * 10 + (c - 48)) acc) := by
  intro ds
  induction ds with
  | nil => intro rest acc _; simp
  | cons c t ih =>
    intro rest acc h
    have hc := h c (by simp)
    have hstep : parseDigitsAux (c :: (t ++ rest)) acc
        = parseDigitsAux (t ++ rest) (acc * 10 + (c - 48)) := by
      simp [parseDigitsAux, hc]
    simp only [List.cons_append, hstep, List.foldl_cons]
    exact ih rest (acc * 10 + (c - 48)) (fun x hx => h x (by simp [hx]))

theorem parseDigitsAux_stop (rest : List Nat) (acc : Nat)
    (h : headDigit rest = false) : parseDigitsAux rest acc = (acc, rest) := by
  cases rest with
  | nil => rfl
  | cons c t =>
    simp only [headDigit, isDigitCode, decide_eq_false_iff_not] at h
    simp [parseDigitsAux, h]

theorem parseDigits_natDigits (n : Nat) (rest : List Nat)
    (h : headDigit rest = false) :
    parseDigitsAux (natDigits n ++ rest) 0 = (n, rest) := by
  rw [natDigits, parseDigitsAux_append _ _ _ (natDigitsGo_digits n n le_rfl),
    natDigitsGo_val n n le_rfl, parseDigitsAux_stop rest n h]

/-! ## JSON values, `JSON.stringify`, `JSON.parse`

JSON values are restricted to integer numbers: the schedule payloads
contain only integers, `JSON.stringify` prints an integral JS number as
plain decimal digits, and `JSON.parse` returns the same integer for
them; fractional and exponent literals are outside the modelled domain
(the parser rejects them), which no verified statement exercises. -/

mutual
inductive Json where
  | null
  | bool (b : Bool)
  | num (n : Int)
  | str (s : List Nat)
  | arr (elems : JsonList)
  | obj (fields : JsonFields)
inductive JsonList where
  | nil
  | cons (hd : Json) (tl : JsonList)
inductive JsonFields where
  | nil
  | cons (key : List Nat) (val : Json) (tl : JsonFields)
end

/-- String-body escaping performed by `JSON.stringify`: quote, backslash
and the short control escapes, `\u00XX` for other control characters,
and every other code unit verbatim. -/
def escapeCode (c : Nat) : List Nat :=
  if c = 34 then [92, 34]
  else if c = 92 then [92, 92]
  else if c = 8 then [92, 98]
  else if c = 9 then [92, 116]
  else if c = 10 then [92, 110]
  else if c = 12 then [92, 102]
  else if c = 13 then [92, 114]
  else if c < 32 then [92, 117, 48, 48, hexDigitLower (c / 16), hexDigitLower (c % 16)]
  else [c]

/-- Escape a whole string body. -/
def escapeCodes : List Nat → List Nat
  | [] => []
  | c :: t => escapeCode c ++ escapeCodes t

mutual
def stringifyJson : Json → List Nat
  | .null => [110, 117, 108, 108]
  | .bool true => [116, 114, 117, 101]
  | .bool false => [102, 97, 108, 115, 101]
  | .num n => intCodes n
  | .str s => 34 :: escapeCodes s ++ [34]
  | .arr xs => 91 :: stringifyElems xs ++ [93]
  | .obj kvs => 123 :: stringifyFields kvs ++ [125]
def stringifyElems : JsonList → List Nat
  | .nil => []
  | .cons x .nil => stringifyJson x
  | .cons x (.cons y t) => stringifyJson x ++ 44 :: stringifyElems (.cons y t)
def stringifyFields : JsonFields → List Nat
  | .nil => []
  | .cons k v .nil => 34 :: escapeCodes k ++ [34, 58] ++ stringifyJson v
  | .cons k v (.cons k2 v2 t) =>
    34 :: escapeCodes k ++ [34, 58] ++ stringifyJson v ++
      44 :: stringifyFields (.cons k2 v2 t)
end

/- Size measure used to budget parser fuel. -/
mutual
def sizeJ : Json → Nat
  | .null => 1
  | .bool _ => 1
  | .num _ => 1
  | .str _ => 1
  | .arr xs => 2 + sizeElems xs
  | .obj kvs => 2 + sizeFields kvs
def sizeElems : JsonList → Nat
  | .nil => 0
  | .cons x t => sizeJ x + 1 + sizeElems t
def sizeFields : JsonFields → Nat
  | .nil => 0
  | .cons _ v t => sizeJ v + 1 + sizeFields t
end

/-- Parse a JSON string body after the opening quote: content up to the
closing quote, handling the standard escapes and `\uXXXX`. -/
def parseJsonString : List Nat → Option (List Nat × List Nat)
  | [] => none
  | c :: rest =>
    if c = 34 then some ([], rest)
    else if c = 92 then
      match rest with
      | [] => none
      | e :: rest2 =>
        if e = 34 then (parseJsonString rest2).map (fun p => (34 :: p.1, p.2))
        else if e = 92 then (parseJsonString rest2).map (fun p => (92 :: p.1, p.2))
        else if e = 47 then (parseJsonString rest2).map (fun p => (47 :: p.1, p.2))
        else if e = 98 then (parseJsonString rest2).map (fun p => (8 :: p.1, p.2))
        else if e = 116 then (parseJsonString rest2).map (fun p => (9 :: p.1, p.2))
        else if e = 110 then (parseJsonString rest2).map (fun p => (10 :: p.1, p.2))
        else if e = 102 then (parseJsonString rest2).map (fun p => (12 :: p.1, p.2))
        else if e = 114 then (parseJsonString rest2).map (fun p => (13 :: p.1, p.2))
        else if e = 117 then
          match rest2 with
          | h1 :: h2 :: h3 :: h4 :: rest3 =>
            match hexQuadVal h1 h2 h3 h4 with
            | some n => (parseJsonString rest3).map (fun p => (n :: p.1, p.2))
            | none => none
          | _ => none
        else none
    else if c < 32 then none
    else (parseJsonString rest).map (fun p => (c :: p.1, p.2))

/-- Match an exact literal, returning the remaining input. -/
def expect : List Nat → List Nat → Option (List Nat)
  | [], s => some s
  | e :: es, s =>
    match s with
    | c :: t => if c = e then expect es t else none
    | [] => none

/-- Parser modes: a JSON value, array elements just after `[` (empty array
allowed), further array elements after a comma (element required), and
the two analogous modes for object members. -/
inductive PMode where
  | value
  | elemsHead
  | elemsMust
  | fieldsHead
  | fieldsMust

/-- Parser results, one constructor per mode family. -/
inductive PRes where
  | v (x : Json)
  | es (xs : JsonList)
  | fs (kvs : JsonFields)

/-- Fuel-indexed recursive-descent parser for the JSON grammar accepted by
`JSON.parse` (whitespace-tolerant, no trailing commas), restricted to
integer number literals.  Structural recursion on the fuel keeps every
equation definitional, so concrete parses evaluate by kernel reduction. -/
def parseF : Nat → PMode → List Nat → Option (PRes × List Nat)
  | 0, _, _ => none
  | f + 1, .value, s0 =>
    match skipWs s0 with
    | [] => none
    | c :: rest =>
      if c = 110 then (expect [117, 108, 108] rest).map (fun r => (.v .null, r))
      else if c = 116 then (expect [114, 117, 101] rest).map (fun r => (.v (.bool true), r))
      else if c = 102 then
        (expect [97, 108, 115, 101] rest).map (fun r => (.v (.bool false), r))
      else if c = 34 then (parseJsonString rest).map (fun p => (.v (.str p.1), p.2))
      else if c = 91 then
        match parseF f .elemsHead (skipWs rest) with
        | some (.es xs, r) => some (.v (.arr xs), r)
        | _ => none
      else if c = 123 then
        match parseF f .fieldsHead (skipWs rest) with
        | some (.fs kvs, r) => some (.v (.obj kvs), r)
        | _ => none
      else if c = 45 then
        match rest with
        | d :: _ =>
          if 48 ≤ d ∧ d ≤ 57 then
            let p := parseDigitsAux rest 0
            some (.v (.num (-(p.1 : Int))), p.2)
          else none
        | [] => none
      else if 48 ≤ c ∧ c ≤ 57 then
        let p := parseDigitsAux (c :: rest) 0
        some (.v (.num (p.1 : Int)), p.2)
      else none
  | f + 1, .elemsHead, s =>
    match s with
    | [] => none
    | c :: rest =>
      if c = 93 then some (.es .nil, rest)
      else
        match parseF f .elemsMust (c :: rest) with
        | some (.es xs, r) => some (.es xs, r)
        | _ => none
  | f + 1, .elemsMust, s =>
    match parseF f .value s with
    | some (.v x, r) =>
      match skipWs r with
      | [] => none
      | c :: r2 =>
        if c = 93 then some (.es (.cons x .nil), r2)
        else if c = 44 then
          match parseF f .elemsMust (skipWs r2) with
          | some (.es xs, r3) => some (.es (.cons x xs), r3)
          | _ => none
        else none
    | _ => none
  | f + 1, .fieldsHead, s =>
    match s with
    | [] => none
    | c :: rest =>
      if c = 125 then some (.fs .nil, rest)
      else
        match parseF f .fieldsMust (c :: rest) with
        | some (.fs kvs, r) => some (.fs kvs, r)
        | _ => none
  | f + 1, .fieldsMust, s =>
    match s with
    | [] => none
    | c :: rest =>
      if c = 34 then
        match parseJsonString rest with
        | some (k, r1) =>
          match skipWs r1 with
          | [] => none
          | c2 :: r2 =>
            if c2 = 58 then
              match parseF f .value (skipWs r2) with
              | some (.v x, r3) =>
                match skipWs r3 with
                | [] => none
                | c3 :: r4 =>
                  if c3 = 125 then some (.fs (.cons k x .nil), r4)
                  else if c3 = 44 then
                    match parseF f .fieldsMust (skipWs r4) with
                    | some (.fs kvs, r5) => some (.fs (.cons k x kvs), r5)
                    | _ => none
                  else none
              | _ => none
            else none
        | none => none
      else none

/-- Parse one JSON value and return it with the remaining input. -/
def parseValue (f : Nat) (s : List Nat) : Option (Json × List Nat) :=
  match parseF f .value s with
  | some (.v x, r) => some (x, r)
  | _ => none

/-- Model of `JSON.parse` (throwing becomes `none`): parse one value with
fuel ample for any input of this length, then require only trailing
whitespace. -/
def jsonParse (s : List Nat) : Option Json :=
  match parseValue (2 * s.length + 2) s with
  | some (x, r) => if skipWs r = [] then some x else none
  | none => none

example : jsonParse (lit "nu") = none := rfl

example : jsonParse (lit " [1, -20, \"a\\n\"] ")
    = some (.arr (.cons (.num 1) (.cons (.num (-20)) (.cons (.str [97, 10]) .nil)))) := rfl

example : jsonParse (lit "\x7b\"k\":true\x7d")
    = some (.obj (.cons [107] (.bool true) .nil)) := rfl

example : jsonParse (lit "\x7b\"k\":true,\x7d") = none := rfl

example : jsonParse (lit "[1,]") = none := rfl

/-! ### Round trip of `jsonParse` after `stringifyJson` -/

theorem expect_append : ∀ p r : List Nat, expect p (p ++ r) = some r := by
  intro p
  induction p with
  | nil => intro r; rfl
  | cons e es ih => intro r; simp [expect, ih]

theorem hexQuad_lower : ∀ c : Fin 32,
    hexQuadVal 48 48 (hexDigitLower (c.val / 16)) (hexDigitLower (c.val % 16))
      = some c.val := by
  decide

theorem skipWs_cons_nws (c : Nat) (t : List Nat) (h : isWsCode c = false) :
    skipWs (c :: t) = c :: t := by
  simp [skipWs, h]

theorem parseJsonString_escape :
    ∀ s rest : List Nat, parseJsonString (escapeCodes s ++ 34 :: rest) = some (s, rest) := by
  intro s
  induction s with
  | nil =>
    intro rest
    simp only [escapeCodes, List.nil_append]
    conv_lhs => rw [parseJsonString.eq_def]
    simp
  | cons c t ih =>
    intro rest
    by_cases h34 : c = 34
    · subst h34
      simp only [escapeCodes, escapeCode, reduceIte, List.cons_append, List.nil_append]
      conv_lhs => rw [parseJsonString.eq_def]
      simp [ih]
    by_cases h92 : c = 92
    · subst h92
      simp only [escapeCodes, escapeCode, reduceIte, List.cons_append, List.nil_append]
      conv_lhs => rw [parseJsonString.eq_def]
      simp [ih]
    by_cases h8 : c = 8
    · subst h8
      simp only [escapeCodes, escapeCode, reduceIte, List.cons_append, List.nil_append]
      conv_lhs => rw [parseJsonString.eq_def]
      simp [ih]
    by_cases h9 : c = 9
    · subst h9
      simp only [escapeCodes, escapeCode, reduceIte, List.cons_append, List.nil_append]
      conv_lhs => rw [parseJsonString.eq_def]
      simp [ih]
    by_cases h10 : c = 10
    · subst h10
      simp only [escapeCodes, escapeCode, reduceIte, List.cons_append, List.nil_append]
      conv_lhs => rw [parseJsonString.eq_def]
      simp [ih]
    by_cases h12 : c = 12
    · subst h12
      simp only [escapeCodes, escapeCode, reduceIte, List.cons_append, List.nil_append]
      conv_lhs => rw [parseJsonString.eq_def]
      simp [ih]
    by_cases h13 : c = 13
    · subst h13
      simp only [escapeCodes, escapeCode, reduceIte, List.cons_append, List.nil_append]
      conv_lhs => rw [parseJsonString.eq_def]
      simp [ih]
    by_cases hctl : c < 32
    · have hq := hexQuad_lower ⟨c, hctl⟩
      simp only [escapeCodes, escapeCode, h34, h92, h8, h9, h10, h12, h13, hctl,
        if_false, reduceIte, List.cons_append, List.nil_append]
      conv_lhs => rw [parseJsonString.eq_def]
      simp only [reduceIte]
      norm_num
      rw [hq]
      simp [ih]
    · simp only [escapeCodes, escapeCode, h34, h92, h8, h9, h10, h12, h13, hctl,
        if_false, reduceIte, List.cons_append, List.nil_append, List.singleton_append]
      conv_lhs => rw [parseJsonString.eq_def]
      simp [h34, h92, hctl, ih]

theorem sizeJ_pos : ∀ v : Json, 1 ≤ sizeJ v := by
  intro v
  cases v <;> simp [sizeJ] <;> omega

/-- The first code unit of a serialized value is never whitespace nor one
of the structural delimiters a surrounding parse loop looks for. -/
theorem stringify_head : ∀ v : Json, ∃ c t, stringifyJson v = c :: t ∧
    isWsCode c = false ∧ c ≠ 93 ∧ c ≠ 44 ∧ c ≠ 125 := by
  intro v
  cases v with
  | null => exact ⟨110, _, rfl, by decide, by decide, by decide, by decide⟩
  | bool b =>
    cases b with
    | true => exact ⟨116, _, rfl, by decide, by decide, by decide, by decide⟩
    | false => exact ⟨102, _, rfl, by decide, by decide, by decide, by decide⟩
  | num n =>
    by_cases hn : n < 0
    · refine ⟨45, natDigits n.natAbs, ?_, by decide, by decide, by decide, by decide⟩
      simp [stringifyJson, intCodes, hn]
    · obtain ⟨d, dt, heq, hd1, hd2⟩ := natDigitsGo_head n.toNat n.toNat le_rfl
      refine ⟨d, dt, ?_, ?_, by omega, by omega, by omega⟩
      · simp [stringifyJson, intCodes, hn, natDigits, heq]
      · simp only [isWsCode, Bool.or_eq_false_iff, decide_eq_false_iff_not]
        omega
  | str s => exact ⟨34, _, rfl, by decide, by decide, by decide, by decide⟩
  | arr xs => exact ⟨91, _, rfl, by decide, by decide, by decide, by decide⟩
  | obj kvs => exact ⟨123, _, rfl, by decide, by decide, by decide, by decide⟩

/-! ### One-step unfolding lemmas for `parseF` -/

theorem parseF_value_110 (f : Nat) (rest : List Nat) :
    parseF (f + 1) .value (110 :: rest)
      = (expect [117, 108, 108] rest).map (fun r => (.v .null, r)) := by
  conv_lhs => rw [parseF.eq_def]
  simp [skipWs, isWsCode]

theorem parseF_value_116 (f : Nat) (rest : List Nat) :
    parseF (f + 1) .value (116 :: rest)
      = (expect [114, 117, 101] rest).map (fun r => (.v (.bool true), r)) := by
  conv_lhs => rw [parseF.eq_def]
  simp [skipWs, isWsCode]

theorem parseF_value_102 (f : Nat) (rest : List Nat) :
    parseF (f + 1) .value (102 :: rest)
      = (expect [97, 108, 115, 101] rest).map (fun r => (.v (.bool false), r)) := by
  conv_lhs => rw [parseF.eq_def]
  simp [skipWs, isWsCode]

theorem parseF_value_34 (f : Nat) (rest : List Nat) :
    parseF (f + 1) .value (34 :: rest)
      = (parseJsonString rest).map (fun p => (.v (.str p.1), p.2)) := by
  conv_lhs => rw [parseF.eq_def]
  simp [skipWs, isWsCode]

theorem parseF_value_91 (f : Nat) (rest : List Nat) :
    parseF (f + 1) .value (91 :: rest)
      = match parseF f .elemsHead (skipWs rest) with
        | some (.es xs, r) => some (.v (.arr xs), r)
        | _ => none := by
  conv_lhs => rw [parseF.eq_def]
  simp [skipWs, isWsCode]

theorem parseF_value_123 (f : Nat) (rest : List Nat) :
    parseF (f + 1) .value (123 :: rest)
      = match parseF f .fieldsHead (skipWs rest) with
        | some (.fs kvs, r) => some (.v (.obj kvs), r)
        | _ => none := by
  conv_lhs => rw [parseF.eq_def]
  simp [skipWs, isWsCode]

theorem parseF_value_neg (f d : Nat) (rest : List Nat) (hd : 48 ≤ d ∧ d ≤ 57) :
    parseF (f + 1) .value (45 :: d :: rest)
      = some (.v (.num (-((parseDigitsAux (d :: rest) 0).1 : Int))),
          (parseDigitsAux (d :: rest) 0).2) := by
  conv_lhs => rw [parseF.eq_def]
  simp [skipWs, isWsCode, hd]

theorem parseF_value_digit (f c : Nat) (rest : List Nat) (hd : 48 ≤ c ∧ c ≤ 57) :
    parseF (f + 1) .value (c :: rest)
      = some (.v (.num ((parseDigitsAux (c :: rest) 0).1 : Int)),
          (parseDigitsAux (c :: rest) 0).2) := by
  have hws : isWsCode c = false := by
    simp only [isWsCode, Bool.or_eq_false_iff, decide_eq_false_iff_not]
    omega
  have h110 : c ≠ 110 := by omega
  have h116 : c ≠ 116 := by omega
  have h102 : c ≠ 102 := by omega
  have h34 : c ≠ 34 := by omega
  have h91 : c ≠ 91 := by omega
  have h123 : c ≠ 123 := by omega
  have h45 : c ≠ 45 := by omega
  conv_lhs => rw [parseF.eq_def]
  simp [skipWs, hws, h110, h116, h102, h34, h91, h123, h45, hd]

theorem parseF_elemsHead_93 (f : Nat) (rest : List Nat) :
    parseF (f + 1) .elemsHead (93 :: rest) = some (.es .nil, rest) := by
  conv_lhs => rw [parseF.eq_def]
  simp

theorem parseF_elemsHead_ne (f c : Nat) (rest : List Nat) (h : c ≠ 93) :
    parseF (f + 1) .elemsHead (c :: rest)
      = match parseF f .elemsMust (c :: rest) with
        | some (.es xs, r) => some (.es xs, r)
        | _ => none := by
  conv_lhs => rw [parseF.eq_def]
  simp [h]

theorem parseF_elemsMust_eq (f : Nat) (s : List Nat) :
    parseF (f + 1) .elemsMust s
      = match parseF f .value s with
        | some (.v x, r) =>
          match skipWs r with
          | [] => none
          | c :: r2 =>
            if c = 93 then some (.es (.cons x .nil), r2)
            else if c = 44 then
              match parseF f .elemsMust (skipWs r2) with
              | some (.es xs, r3) => some (.es (.cons x xs), r3)
              | _ => none
            else none
        | _ => none := by
  conv_lhs => rw [parseF.eq_def]

theorem parseF_fieldsHead_125 (f : Nat) (rest : List Nat) :
    parseF (f + 1) .fieldsHead (125 :: rest) = some (.fs .nil, rest) := by
  conv_lhs => rw [parseF.eq_def]
  simp

theorem parseF_fieldsHead_ne (f c : Nat) (rest : List Nat) (h : c ≠ 125) :
    parseF (f + 1) .fieldsHead (c :: rest)
      = match parseF f .fieldsMust (c :: rest) with
        | some (.fs kvs, r) => some (.fs kvs, r)
        | _ => none := by
  conv_lhs => rw [parseF.eq_def]
  simp [h]

theorem parseF_fieldsMust_34 (f : Nat) (rest : List Nat) :
    parseF (f + 1) .fieldsMust (34 :: rest)
      = match parseJsonString rest with
        | some (k, r1) =>
          match skipWs r1 with
          | [] => none
          | c2 :: r2 =>
            if c2 = 58 then
              match parseF f .value (skipWs r2) with
              | some (.v x, r3) =>
                match skipWs r3 with
                | [] => none
                | c3 :: r4 =>
                  if c3 = 125 then some (.fs (.cons k x .nil), r4)
                  else if c3 = 44 then
                    match parseF f .fieldsMust (skipWs r4) with
                    | some (.fs kvs, r5) => some (.fs (.cons k x kvs), r5)
                    | _ => none
                  else none
              | _ => none
            else none
        | none => none := by
  conv_lhs => rw [parseF.eq_def]
  simp

/-! ### Shape lemmas for serialized output -/

/-- Serialization of the remaining elements after the first one. -/
def elemsTail : JsonList → List Nat
  | .nil => []
  | .cons y t => 44 :: stringifyElems (.cons y t)

/-- Serialization of the remaining members after the first one. -/
def fieldsTail : JsonFields → List Nat
  | .nil => []
  | .cons k2 v2 t => 44 :: stringifyFields (.cons k2 v2 t)

theorem stringifyElems_cons (x : Json) (t : JsonList) :
    stringifyElems (.cons x t) = stringifyJson x ++ elemsTail t := by
  cases t <;> simp [stringifyElems, elemsTail]

theorem stringifyFields_cons (k : List Nat) (v : Json) (t : JsonFields) :
    stringifyFields (.cons k v t)
      = 34 :: escapeCodes k ++ [34, 58] ++ stringifyJson v ++ fieldsTail t := by
  cases t <;> simp [stringifyFields, fieldsTail]

theorem skipWs_append_sj (v : Json) (r : List Nat) :
    skipWs (stringifyJson v ++ r) = stringifyJson v ++ r := by
  obtain ⟨c0, t0, hx, hws, _, _, _⟩ := stringify_head v
  rw [hx]
  simp only [List.cons_append]
  exact skipWs_cons_nws _ _ hws

theorem skipWs_elems (xs : JsonList) (r : List Nat) :
    skipWs (stringifyElems xs ++ 93 :: r) = stringifyElems xs ++ 93 :: r := by
  cases xs with
  | nil =>
    simp only [stringifyElems, List.nil_append]
    exact skipWs_cons_nws 93 r (by decide)
  | cons x t =>
    rw [stringifyElems_cons, List.append_assoc]
    exact skipWs_append_sj x _

theorem skipWs_fields (kvs : JsonFields) (r : List Nat) :
    skipWs (stringifyFields kvs ++ 125 :: r) = stringifyFields kvs ++ 125 :: r := by
  cases kvs with
  | nil =>
    simp only [stringifyFields, List.nil_append]
    exact skipWs_cons_nws 125 r (by decide)
  | cons k v t =>
    rw [stringifyFields_cons]
    simp only [List.cons_append]
    exact skipWs_cons_nws 34 _ (by decide)

/-! ### Fuel bound -/

mutual
theorem size_le : ∀ v : Json, sizeJ v + 1 ≤ 2 * (stringifyJson v).length
  | .null => by simp [sizeJ, stringifyJson]
  | .bool b => by cases b <;> simp [sizeJ, stringifyJson]
  | .num n => by
    have hne : intCodes n ≠ [] := by
      unfold intCodes
      split
      · simp
      · obtain ⟨d, dt, heq, _, _⟩ := natDigitsGo_head n.toNat n.toNat le_rfl
        simp [natDigits, heq]
    have hlen : 1 ≤ (intCodes n).length := List.length_pos.mpr hne
    simp only [sizeJ, stringifyJson]
    omega
  | .str s => by
    simp only [sizeJ, stringifyJson, List.length_cons, List.length_append]
    omega
  | .arr xs => by
    have h := size_le_elems xs
    simp only [sizeJ, stringifyJson, List.length_cons, List.length_append]
    omega
  | .obj kvs => by
    have h := size_le_fields kvs
    simp only [sizeJ, stringifyJson, List.length_cons, List.length_append]
    omega
theorem size_le_elems : ∀ xs : JsonList, sizeElems xs ≤ 2 * (stringifyElems xs).length + 1
  | .nil => by simp [sizeElems, stringifyElems]
  | .cons x .nil => by
    have h := size_le x
    simp only [sizeElems, stringifyElems]
    omega
  | .cons x (.cons y t) => by
    have h1 := size_le x
    have h2 := size_le_elems (.cons y t)
    simp only [sizeElems] at h2 ⊢
    simp only [stringifyElems, List.length_append, List.length_cons]
    omega
theorem size_le_fields : ∀ kvs : JsonFields, sizeFields kvs ≤ 2 * (stringifyFields kvs).length + 1
  | .nil => by simp [sizeFields, stringifyFields]
  | .cons k v .nil => by
    have h := size_le v
    simp only [sizeFields, stringifyFields, List.length_append, List.length_cons]
    omega
  | .cons k v (.cons k2 v2 t) => by
    have h1 := size_le v
    have h2 := size_le_fields (.cons k2 v2 t)
    simp only [sizeFields] at h2 ⊢
    simp only [stringifyFields, List.length_append, List.length_cons]
    omega
end

/-- Parsing inverts serialization, for every parser mode, by induction on
the fuel: with fuel at least the size of the value, `parseF` consumes
exactly the serialized form and returns the value. -/
theorem parseF_round : ∀ f : Nat,
    (∀ v rest, sizeJ v ≤ f → headDigit rest = false →
      parseF f .value (stringifyJson v ++ rest) = some (.v v, rest)) ∧
    (∀ xs rest, sizeElems xs + 1 ≤ f →
      parseF f .elemsHead (stringifyElems xs ++ 93 :: rest) = some (.es xs, rest)) ∧
    (∀ xs rest, xs ≠ .nil → sizeElems xs ≤ f →
      parseF f .elemsMust (stringifyElems xs ++ 93 :: rest) = some (.es xs, rest)) ∧
    (∀ kvs rest, sizeFields kvs + 1 ≤ f →
      parseF f .fieldsHead (stringifyFields kvs ++ 125 :: rest) = some (.fs kvs, rest)) ∧
    (∀ kvs rest, kvs ≠ .nil → sizeFields kvs ≤ f →
      parseF f .fieldsMust (stringifyFields kvs ++ 125 :: rest) = some (.fs kvs, rest)) := by
  intro f
  induction f with
  | zero =>
    refine ⟨?_, ?_, ?_, ?_, ?_⟩
    · intro v rest hsz _
      exact absurd hsz (by have := sizeJ_pos v; omega)
    · intro xs rest hsz
      exact absurd hsz (by omega)
    · intro xs rest hne hsz
      cases xs with
      | nil => exact absurd rfl hne
      | cons x t =>
        refine absurd hsz (by simp only [sizeElems]; have := sizeJ_pos x; omega)
    · intro kvs rest hsz
      exact absurd hsz (by omega)
    · intro kvs rest hne hsz
      cases kvs with
      | nil => exact absurd rfl hne
      | cons k v t =>
        refine absurd hsz (by simp only [sizeFields]; have := sizeJ_pos v; omega)
  | succ f ih =>
    obtain ⟨ihV, ihEH, ihEM, ihFH, ihFM⟩ := ih
    refine ⟨?_, ?_, ?_, ?_, ?_⟩
    · -- value mode
      intro v rest hsz hrest
      cases v with
      | null =>
        rw [show stringifyJson .null ++ rest = 110 :: ([117, 108, 108] ++ rest) from rfl,
          parseF_value_110, expect_append]
        rfl
      | bool b =>
        cases b with
        | true =>
          rw [show stringifyJson (.bool true) ++ rest = 116 :: ([114, 117, 101] ++ rest) from rfl,
            parseF_value_116, expect_append]
          rfl
        | false =>
          rw [show stringifyJson (.bool false) ++ rest
              = 102 :: ([97, 108, 115, 101] ++ rest) from rfl,
            parseF_value_102, expect_append]
          rfl
      | num n =>
        by_cases hn : n < 0
        · obtain ⟨d, dt, heq, hd1, hd2⟩ := natDigitsGo_head n.natAbs n.natAbs le_rfl
          have h1 : stringifyJson (.num n) ++ rest = 45 :: (natDigits n.natAbs ++ rest) := by
            simp [stringifyJson, intCodes, hn]
          have h2 : natDigits n.natAbs ++ rest = d :: (dt ++ rest) := by
            simp [natDigits, heq]
          rw [h1, h2, parseF_value_neg f d (dt ++ rest) ⟨hd1, hd2⟩, ← h2,
            parseDigits_natDigits _ _ hrest]
          have h3 : -((n.natAbs : Nat) : Int) = n := by omega
          dsimp only
          rw [h3]
        · obtain ⟨d, dt, heq, hd1, hd2⟩ := natDigitsGo_head n.toNat n.toNat le_rfl
          have h1 : stringifyJson (.num n) ++ rest = d :: (dt ++ rest) := by
            simp [stringifyJson, intCodes, hn, natDigits, heq]
          have h2 : (d :: (dt ++ rest) : List Nat) = natDigits n.toNat ++ rest := by
            simp [natDigits, heq]
          rw [h1, parseF_value_digit f d (dt ++ rest) ⟨hd1, hd2⟩, h2,
            parseDigits_natDigits _ _ hrest]
          have h3 : ((n.toNat : Nat) : Int) = n := by omega
          dsimp only
          rw [h3]
      | str s =>
        rw [show stringifyJson (.str s) ++ rest = 34 :: (escapeCodes s ++ 34 :: rest) by
            simp [stringifyJson],
          parseF_value_34, parseJsonString_escape]
        rfl
      | arr xs =>
        rw [show stringifyJson (.arr xs) ++ rest = 91 :: (stringifyElems xs ++ 93 :: rest) by
            simp [stringifyJson],
          parseF_value_91, skipWs_elems,
          ihEH xs rest (by simp only [sizeJ] at hsz; omega)]
      | obj kvs =>
        rw [show stringifyJson (.obj kvs) ++ rest
            = 123 :: (stringifyFields kvs ++ 125 :: rest) by simp [stringifyJson],
          parseF_value_123, skipWs_fields,
          ihFH kvs rest (by simp only [sizeJ] at hsz; omega)]
    · -- elemsHead mode
      intro xs rest hsz
      cases xs with
      | nil =>
        simp only [stringifyElems, List.nil_append]
        exact parseF_elemsHead_93 f rest
      | cons x t =>
        obtain ⟨c0, t0, hx, hws, h93, h44, h125⟩ := stringify_head x
        have hshape : stringifyElems (.cons x t) ++ 93 :: rest
            = c0 :: (t0 ++ (elemsTail t ++ 93 :: rest)) := by
          rw [stringifyElems_cons, hx]
          simp [List.append_assoc]
        rw [hshape, parseF_elemsHead_ne f c0 _ h93, ← hshape,
          ihEM (.cons x t) rest (by simp) (by omega)]
    · -- elemsMust mode
      intro xs rest hne hsz
      cases xs with
      | nil => exact absurd rfl hne
      | cons x t =>
        have hszx : sizeJ x ≤ f := by
          simp only [sizeElems] at hsz
          omega
        rw [parseF_elemsMust_eq]
        cases t with
        | nil =>
          rw [show stringifyElems (.cons x .nil) ++ 93 :: rest
              = stringifyJson x ++ 93 :: rest by simp [stringifyElems],
            ihV x (93 :: rest) hszx (by simp [headDigit, isDigitCode])]
          simp [skipWs, isWsCode]
        | cons y t2 =>
          have hszr : sizeElems (.cons y t2) ≤ f := by
            simp only [sizeElems] at hsz ⊢
            have := sizeJ_pos x
            omega
          have hrec := ihEM (.cons y t2) rest (by simp) hszr
          rw [show stringifyElems (.cons x (.cons y t2)) ++ 93 :: rest
              = stringifyJson x ++ (44 :: (stringifyElems (.cons y t2) ++ 93 :: rest)) by
              simp [stringifyElems, List.append_assoc],
            ihV x (44 :: (stringifyElems (.cons y t2) ++ 93 :: rest)) hszx
              (by simp [headDigit, isDigitCode])]
          simp only [skipWs_cons_nws 44 _ (by decide)]
          simp [skipWs_elems, hrec]
    · -- fieldsHead mode
      intro kvs rest hsz
      cases kvs with
      | nil =>
        simp only [stringifyFields, List.nil_append]
        exact parseF_fieldsHead_125 f rest
      | cons k v t =>
        have hshape : stringifyFields (.cons k v t) ++ 125 :: rest
            = 34 :: (escapeCodes k ++ ([34, 58] ++ (stringifyJson v ++
                (fieldsTail t ++ 125 :: rest)))) := by
          rw [stringifyFields_cons]
          simp [List.append_assoc]
        rw [hshape, parseF_fieldsHead_ne f 34 _ (by decide), ← hshape,
          ihFM (.cons k v t) rest (by simp) (by omega)]
    · -- fieldsMust mode
      intro kvs rest hne hsz
      cases kvs with
      | nil => exact absurd rfl hne
      | cons k v t =>
        have hszv : sizeJ v ≤ f := by
          simp only [sizeFields] at hsz
          omega
        cases t with
        | nil =>
          rw [show stringifyFields (.cons k v .nil) ++ 125 :: rest
              = 34 :: (escapeCodes k ++ 34 :: (58 :: (stringifyJson v ++ 125 :: rest))) by
              simp [stringifyFields, List.append_assoc],
            parseF_fieldsMust_34, parseJsonString_escape]
          simp only [skipWs_cons_nws 58 _ (by decide)]
          simp only [reduceIte, skipWs_append_sj,
            ihV v (125 :: rest) hszv (by simp [headDigit, isDigitCode])]
          simp [skipWs, isWsCode]
        | cons k2 v2 t2 =>
          have hszr : sizeFields (.cons k2 v2 t2) ≤ f := by
            simp only [sizeFields] at hsz ⊢
            have := sizeJ_pos v
            omega
          have hrec := ihFM (.cons k2 v2 t2) rest (by simp) hszr
          rw [show stringifyFields (.cons k v (.cons k2 v2 t2)) ++ 125 :: rest
              = 34 :: (escapeCodes k ++ 34 :: (58 :: (stringifyJson v ++
                  (44 :: (stringifyFields (.cons k2 v2 t2) ++ 125 :: rest))))) by
              simp [stringifyFields, List.append_assoc],
            parseF_fieldsMust_34, parseJsonString_escape]
          simp only [skipWs_cons_nws 58 _ (by decide)]
          simp only [reduceIte, skipWs_append_sj,
            ihV v (44 :: (stringifyFields (.cons k2 v2 t2) ++ 125 :: rest)) hszv
              (by simp [headDigit, isDigitCode])]
          simp only [skipWs_cons_nws 44 _ (by decide)]
          simp [skipWs_fields, hrec]

/-- `JSON.parse` inverts `JSON.stringify`. -/
theorem jsonParse_stringify (v : Json) : jsonParse (stringifyJson v) = some v := by
  have hsz : sizeJ v ≤ 2 * (stringifyJson v).length + 2 := by
    have := size_le v
    omega
  have h := (parseF_round (2 * (stringifyJson v).length + 2)).1 v [] hsz rfl
  rw [List.append_nil] at h
  simp [jsonParse, parseValue, h, skipWs]

/-! ## The schedule and its codec (`DataAnnotation.js`)

A schedule is the object the component stores in the
`annotation_schedule` query parameter:
`{ idx: int, annotations: [ { object_category, object_id, grasp_id }, ... ] }`.
`encodeStr`/`decodeStr` are `encodeURIComponent ∘ btoa` and
`atob ∘ decodeURIComponent`; the payload is produced by `JSON.stringify`
and consumed by `JSON.parse`. -/

/-- One annotation task, as served by `/api/get-object-info` and embedded
in the schedule. -/
structure Annotation where
  object_category : List Nat
  object_id : List Nat
  grasp_id : Int
deriving DecidableEq

/-- The schedule: a cursor and the ordered task list. -/
structure Schedule where
  idx : Int
  annotations : List Annotation
deriving DecidableEq

/-- Structural validity from the spec: the cursor is in bounds (which
forces a non-empty task list). -/
def validSchedule (s : Schedule) : Bool :=
  decide (0 ≤ s.idx) && decide (s.idx < s.annotations.length)

/-- JSON object for one annotation, field order as produced by the
backend and re-serialized by `JSON.stringify`. -/
def annotationToJson (a : Annotation) : Json :=
  .obj (.cons (lit "object_category") (.str a.object_category)
    (.cons (lit "object_id") (.str a.object_id)
      (.cons (lit "grasp_id") (.num a.grasp_id) .nil)))

/-- Json array of annotation objects. -/
def annListToJsonList : List Annotation → JsonList
  | [] => .nil
  | a :: t => .cons (annotationToJson a) (annListToJsonList t)

/-- JSON value of a schedule, with the field order of the object literal
built in `fetchObjectInfo` (`{ idx, annotations }`). -/
def scheduleToJson (s : Schedule) : Json :=
  .obj (.cons (lit "idx") (.num s.idx)
    (.cons (lit "annotations") (.arr (annListToJsonList s.annotations)) .nil))

/-- Model of `encodeStr(JSON.stringify(schedule))`:
`encodeURIComponent(btoa(JSON.stringify(schedule)))`; `none` when `btoa`
throws on a code unit above 255. -/
def encodeSchedule (s : Schedule) : Option (List Nat) :=
  (btoaCodes (stringifyJson (scheduleToJson s))).map uriEncodeL

/-- Model of `JSON.parse(decodeStr(token))`:
`JSON.parse(atob(decodeURIComponent(token)))`; `none` when any stage
throws. -/
def decodeToken (t : List Nat) : Option Json := do
  let u ← uriDecode t
  let b ← atobCodes u
  jsonParse b

/-- JS property lookup on a parsed JSON object: the last occurrence of a
duplicated key wins, as in the object `JSON.parse` builds. -/
def jsLookup : JsonFields → List Nat → Option Json
  | .nil, _ => none
  | .cons k v t, key =>
    match jsLookup t key with
    | some r => some r
    | none => if k = key then some v else none

/-- Read an `Annotation` back from its parsed JSON object, mirroring the
fields the component dereferences
(`object_category`, `object_id`, `grasp_id`). -/
def jsonToAnnotation (j : Json) : Option Annotation :=
  match j with
  | .obj kvs =>
    match jsLookup kvs (lit "object_category"), jsLookup kvs (lit "object_id"),
        jsLookup kvs (lit "grasp_id") with
    | some (.str c), some (.str i), some (.num g) => some ⟨c, i, g⟩
    | _, _, _ => none
  | _ => none

/-- Read back a list of annotations. -/
def jsonListToAnnots : JsonList → Option (List Annotation)
  | .nil => some []
  | .cons x t => do
    let a ← jsonToAnnotation x
    let r ← jsonListToAnnots t
    pure (a :: r)

/-- Read a `Schedule` back from its parsed JSON value, mirroring the
component's accesses `schedule.idx` and `schedule.annotations[i]`. -/
def jsonToSchedule (j : Json) : Option Schedule :=
  match j with
  | .obj kvs =>
    match jsLookup kvs (lit "idx"), jsLookup kvs (lit "annotations") with
    | some (.num i), some (.arr xs) => (jsonListToAnnots xs).map (fun l => ⟨i, l⟩)
    | _, _ => none
  | _ => none

theorem jsonToAnnotation_round (a : Annotation) :
    jsonToAnnotation (annotationToJson a) = some a := by
  rfl

theorem jsonListToAnnots_round : ∀ l : List Annotation,
    jsonListToAnnots (annListToJsonList l) = some l := by
  intro l
  induction l with
  | nil => rfl
  | cons a t ih =>
    simp [annListToJsonList, jsonListToAnnots, jsonToAnnotation_round, ih]

theorem jsonToSchedule_round (s : Schedule) :
    jsonToSchedule (scheduleToJson s) = some s := by
  simp [scheduleToJson, jsonToSchedule, jsLookup, lit, jsonListToAnnots_round]

/-- The complete decode-after-encode chain: whenever `btoa` accepts the
serialized schedule (all code units Latin-1), the stored token decodes
back to the original JSON value, and reading the fields the component
uses yields the original schedule. -/
theorem decode_encode_schedule (s : Schedule) (t : List Nat)
    (henc : encodeSchedule s = some t) :
    decodeToken t = some (scheduleToJson s)
      ∧ jsonToSchedule (scheduleToJson s) = some s := by
  refine ⟨?_, jsonToSchedule_round s⟩
  unfold encodeSchedule btoaCodes at henc
  by_cases hall : (stringifyJson (scheduleToJson s)).all (fun c => decide (c ≤ 255)) = true
  · rw [if_pos hall] at henc
    have ht : uriEncodeL (btoaGroups (stringifyJson (scheduleToJson s))) = t := by
      simpa using henc
    subst ht
    have hbytes : ∀ b ∈ stringifyJson (scheduleToJson s), b ≤ 255 := by
      intro b hb
      exact of_decide_eq_true (List.all_eq_true.mp hall b hb)
    have h128 := btoaGroups_lt_128 _ hbytes
    unfold decodeToken
    rw [uriDecode_encode _ h128]
    simp [atob_btoa _ hbytes, jsonParse_stringify]
  · rw [if_neg hall] at henc
    simp at henc

/-! ## Workflow controller (`DataAnnotation.js`) -/

/-- The query parameters the component reads (`searchParams.get` yields
`null` or a string; `searchParams.has` is modelled by `Option.isSome`). -/
structure QueryParams where
  oneshot : Option String
  prolific_code : Option String
  prolific_rejection_code : Option String

/-- Line 112: `searchParams.get('oneshot') === 'true' ||
searchParams.has("prolific_code")`. -/
def oneshotFlag (p : QueryParams) : Bool :=
  p.oneshot == some "true" || p.prolific_code.isSome

/-- The `Fetch Mesh` button is rendered with `hidden={oneshot}`. -/
def fetchMeshButtonHidden (p : QueryParams) : Bool :=
  oneshotFlag p

/-- Observable outcome of one `onFormSubmit` call. -/
inductive SubmitOutcome where
  | fetchNext
  | prolificRedirect (code : String)
  | navigateDone
  | advance (s : Schedule)
deriving DecidableEq

/-- Model of `onFormSubmit`: at the last task, either fetch a fresh
schedule (batch), redirect to the Prolific completion URL, or navigate to
`/done`; otherwise advance the cursor and re-persist the schedule via
`navigateToSchedule`. -/
def onFormSubmit (p : QueryParams) (s : Schedule) : SubmitOutcome :=
  if s.idx + 1 = (s.annotations.length : Int) then
    if ¬oneshotFlag p then .fetchNext
    else
      match p.prolific_code with
      | some c => .prolificRedirect c
      | none => .navigateDone
  else .advance { s with idx := s.idx + 1 }

/-- Whether an outcome terminates the session (navigation to `/done` or
the external completion redirect). -/
def isTerminal : SubmitOutcome → Bool
  | .prolificRedirect _ => true
  | .navigateDone => true
  | _ => false

/-- Iterate `onFormSubmit` through `k` cursor advances; `none` as soon as
an iteration leaves the advance branch. -/
def submitN (p : QueryParams) : Nat → Schedule → Option Schedule
  | 0, s => some s
  | k + 1, s =>
    match onFormSubmit p s with
    | .advance s2 => submitN p k s2
    | _ => none

/-- A response of the `/api/get-object-info` endpoint: HTTP status plus
the parsed task body (meaningful only for a `200`-range status other
than 204). -/
structure FetchResponse where
  status : Nat
  body : Annotation

/-- Observable outcome of one `fetchObjectInfo` call. -/
inductive FetchOutcome where
  | errorAlert
  | doneNavigate
  | newSchedule (s : Schedule)
deriving DecidableEq

/-- `Response.ok`: status in the inclusive range 200-299. -/
def responseOk (r : FetchResponse) : Bool :=
  decide (200 ≤ r.status) && decide (r.status ≤ 299)

/-- Model of `fetchObjectInfo`: a non-ok status alerts and re-enables the
fetch control (retryable, no navigation); status 204 alerts
"No more objects to annotate!" and navigates to `/done`; otherwise a
fresh single-task schedule with cursor 0 is built and persisted. -/
def fetchObjectInfo (r : FetchResponse) : FetchOutcome :=
  if ¬responseOk r then .errorAlert
  else if r.status = 204 then .doneNavigate
  else .newSchedule { idx := 0, annotations := [r.body] }

/-! ### The schedule-decoding effect (lines 87-98)

The effect does `JSON.parse(decodeStr(token))`, reads `schedule.idx`,
checks `idx >= schedule.annotations.length || idx < 0` and either alerts
("Invalid schedule index!", leaving no schedule set) or stores the
parsed value as the active schedule.  There is no `try`/`catch`: a
token that fails URI/base64/JSON decoding, or a parsed value on which
`.length` of `annotations` throws, crashes the effect (uncaught
exception). -/

/-- Observable outcome of the schedule-decoding effect. -/
inductive EffectOutcome where
  | crash
  | invalidAlert
  | accepted (j : Json)

/-- JS property access on the parsed root value: `none` is a thrown
`TypeError` (property access on `null`), `some none` is `undefined`
(missing member, or access on a primitive or array, none of which carry
an `idx`/`annotations` member). -/
def propAccess (j : Json) (key : List Nat) : Option (Option Json) :=
  match j with
  | .null => none
  | .obj kvs => some (jsLookup kvs key)
  | _ => some none

/-- `Number(string)` on the strings relevant here: whitespace-trimmed
empty string is 0, an optionally negated digit run is its value; other
forms (hex, fractions, exponents) are outside the modelled domain and
map to `none` (NaN), which no verified statement exercises. -/
def jsStrToNumber (s : List Nat) : Option Int :=
  let t := ((s.dropWhile (fun c => isB64Ws c)).reverse.dropWhile
    (fun c => isB64Ws c)).reverse
  match t with
  | [] => some 0
  | 45 :: ds => if ds ≠ [] ∧ ds.all (fun c => isDigitCode c)
      then some (-(digitsVal ds : Int)) else none
  | ds => if ds ≠ [] ∧ ds.all (fun c => isDigitCode c)
      then some ((digitsVal ds : Int)) else none

/-- JS `ToNumber` of a property value, `none` meaning NaN: `undefined` is
NaN, `null` is 0, booleans are 0/1, numbers are themselves, strings are
numerically parsed, and plain objects coerce through
`"[object Object]"` to NaN.  Array coercion (`[] → 0`, `[n] → n`) is not
modelled and maps to NaN; no verified statement exercises it. -/
def jsToNumber : Option Json → Option Int
  | none => none
  | some .null => some 0
  | some (.bool b) => some (if b then 1 else 0)
  | some (.num n) => some n
  | some (.str s) => jsStrToNumber s
  | some (.arr _) => none
  | some (.obj _) => none

/-- Result of evaluating `.length` on the `annotations` member. -/
inductive LenRes where
  | lengthThrow
  | lengthAbsent
  | lengthVal (n : Int)

/-- Number of elements of a parsed JSON array. -/
def jsonListLength : JsonList → Nat
  | .nil => 0
  | .cons _ t => 1 + jsonListLength t

/-- `.length` of the `annotations` member: throws on `undefined`/`null`,
is the element count on an array, the code-unit count on a string, and
`undefined` on other primitives and plain objects (an explicit `length`
member on an object is not modelled; no verified statement exercises
one). -/
def jsLengthOf : Option Json → LenRes
  | none => .lengthThrow
  | some .null => .lengthThrow
  | some (.arr xs) => .lengthVal (jsonListLength xs)
  | some (.str s) => .lengthVal s.length
  | some _ => .lengthAbsent

/-- JS `>=` with NaN/undefined operands false. -/
def jsGe : Option Int → Option Int → Bool
  | some a, some b => decide (b ≤ a)
  | _, _ => false

/-- JS `<` with NaN/undefined operands false. -/
def jsLt : Option Int → Option Int → Bool
  | some a, some b => decide (a < b)
  | _, _ => false

/-- The post-parse logic of the effect on the parsed value. -/
def effectOfJson (j : Json) : EffectOutcome :=
  match propAccess j (lit "idx") with
  | none => .crash
  | some idxProp =>
    match propAccess j (lit "annotations") with
    | none => .crash
    | some annProp =>
      match jsLengthOf annProp with
      | .lengthThrow => .crash
      | .lengthAbsent =>
        if jsGe (jsToNumber idxProp) none || jsLt (jsToNumber idxProp) (some 0)
        then .invalidAlert else .accepted j
      | .lengthVal len =>
        if jsGe (jsToNumber idxProp) (some len) || jsLt (jsToNumber idxProp) (some 0)
        then .invalidAlert else .accepted j

/-- The whole schedule-decoding effect on a token. -/
def scheduleEffect (token : List Nat) : EffectOutcome :=
  match decodeToken token with
  | none => .crash
  | some j => effectOfJson j

/-! ## Submission handler (`AnnotationForm.js`, `handleSubmit`) -/

/-- The result of the submission `fetch`: success, a non-2xx response
(alert with the HTTP status), or a thrown network error (alert from the
`catch` block). -/
inductive SubmitResult where
  | success
  | httpError (status : Nat)
  | networkError
deriving DecidableEq

/-- Configuration the handler closes over. -/
structure FormConfig where
  oneshot : Bool
  prolific_code : Option String

/-- Whether the handler reports an error to the user. -/
def submitReported : SubmitResult → Bool
  | .success => false
  | _ => true

/-- What the handler does after the `try`/`catch`. -/
inductive FormNext where
  | resetAndFetch
  | prolificRedirect (code : String)
  | navigateDone
deriving DecidableEq

/-- Model of `AnnotationForm.handleSubmit`: the submission result only
determines the error report; the continuation (reset the form and fetch
the next mesh, or terminate the one-shot session) is unconditional. -/
def formHandleSubmit (cfg : FormConfig) (r : SubmitResult) : Bool × FormNext :=
  (submitReported r,
    if ¬cfg.oneshot then .resetAndFetch
    else
      match cfg.prolific_code with
      | some c => .prolificRedirect c
      | none => .navigateDone)

/-! ## Quiz gate (`Quiz.js`)

The answer texts and feedback strings are presentation-only and carry no
control flow; each answer is modelled by its id and its `correct` flag
(absent in the source for incorrect answers, hence `false`). -/

/-- One multiple-choice answer. -/
structure QuizAnswer where
  id : String
  correct : Bool
deriving DecidableEq

/-- The object shown beside a question. -/
structure QuizObject where
  object_category : String
  object_id : String
  grasp_id : Nat
deriving DecidableEq

/-- One quiz question. -/
structure QuizQuestion where
  object : QuizObject
  answers : List QuizAnswer
deriving DecidableEq

/-- The `QUESTIONS` constant: two questions, correct answers `b` and `c`. -/
def QUESTIONS : List QuizQuestion :=
  [{ object := ⟨"Mug", "128ecbc10df5b05d96eaf1340564a4de_0.0013421115752322193", 1326⟩,
     answers := [⟨"a", false⟩, ⟨"b", true⟩, ⟨"c", false⟩, ⟨"d", false⟩] },
   { object := ⟨"Pan", "c8b06a6cb1a910c38e43a810a63361f0_3.666323933306171e-05", 529⟩,
     answers := [⟨"a", false⟩, ⟨"b", false⟩, ⟨"c", true⟩, ⟨"d", false⟩] }]

/-- The component state of the quiz. -/
structure QuizState where
  currentQuestionIdx : Nat
  selectedAnswer : Option String
  showFeedback : Bool
  submittedAnswers : List String
  correctAnswers : Nat
deriving DecidableEq

/-- Fallback for an out-of-range index (never reached from the rendered
states, whose index stays below `QUESTIONS.length`). -/
def defaultQuestion : QuizQuestion :=
  ⟨⟨"", "", 0⟩, []⟩

/-- `QUESTIONS[currentQuestionIdx]`. -/
def currentQuestion (s : QuizState) : QuizQuestion :=
  QUESTIONS.getD s.currentQuestionIdx defaultQuestion

/-- `new Set([...prev, selectedAnswer])`: insert without duplicates. -/
def insertAnswer (l : List String) (a : String) : List String :=
  if a ∈ l then l else l ++ [a]

/-- `currentQuestion.answers.find(a => a.id === selectedAnswer)?.correct ?? false`. -/
def isCorrectSel (q : QuizQuestion) (sel : String) : Bool :=
  ((q.answers.find? (fun an => an.id == sel)).map (fun an => an.correct)).getD false

/-- The body of `handleSubmit` (guarded by `selectedAnswer === null`). -/
def handleSubmitQuiz (s : QuizState) : QuizState :=
  match s.selectedAnswer with
  | none => s
  | some sel =>
    { s with
      showFeedback := true,
      submittedAnswers := insertAnswer s.submittedAnswers sel,
      correctAnswers :=
        s.correctAnswers + (if isCorrectSel (currentQuestion s) sel then 1 else 0) }

/-- The submit button is disabled when
`selectedAnswer === null || submittedAnswers.has(selectedAnswer)`. -/
def submitDisabled (s : QuizState) : Bool :=
  match s.selectedAnswer with
  | none => true
  | some a => decide (a ∈ s.submittedAnswers)

/-- The user-level answer-submission operation: clicking the submit
button, which is inert while disabled. -/
def clickSubmit (s : QuizState) : QuizState :=
  if submitDisabled s then s else handleSubmitQuiz s

/-- `answers.find(a => a.correct)?.id`. -/
def correctId (q : QuizQuestion) : Option String :=
  (q.answers.find? (fun an => an.correct)).map (fun an => an.id)

/-- The continue/finish button is rendered only when
`showFeedback && submittedAnswers.has(answers.find(a => a.correct)?.id)`
(`Set.has(undefined)` is false when no answer is marked correct). -/
def continueShown (s : QuizState) : Bool :=
  s.showFeedback &&
    (match correctId (currentQuestion s) with
     | some i => decide (i ∈ s.submittedAnswers)
     | none => false)

/-- Observable outcome of `handleContinue`. -/
inductive ContinueOutcome where
  | passed
  | rejectedRedirect (code : String)
  | rejectedDelayedDone
  | nextQuestion (s2 : QuizState)
deriving DecidableEq

/-- Model of `handleContinue`: on the final question, pass (navigate to
the main workflow, keeping the query string) iff
`correctAnswers / QUESTIONS.length >= 0.5`, otherwise redirect to the
Prolific rejection URL when configured, else alert and navigate to
`/done` after a delay; on a non-final question, advance to the next
question with selection, feedback and submitted answers reset. -/
def handleContinue (p : QueryParams) (s : QuizState) : ContinueOutcome :=
  if s.currentQuestionIdx = QUESTIONS.length - 1 then
    if (s.correctAnswers : ℚ) / (QUESTIONS.length : ℚ) ≥ 0.5 then .passed
    else
      match p.prolific_rejection_code with
      | some c => .rejectedRedirect c
      | none => .rejectedDelayedDone
  else
    .nextQuestion
      { currentQuestionIdx := s.currentQuestionIdx + 1,
        selectedAnswer := none,
        showFeedback := false,
        submittedAnswers := [],
        correctAnswers := s.correctAnswers }

/-- The user-level continue operation: the button exists only when
`continueShown`. -/
def clickContinue (p : QueryParams) (s : QuizState) : Option ContinueOutcome :=
  if continueShown s then some (handleContinue p s) else none

set_option maxRecDepth 100000

/-! ## Claim theorems -/

/-- C1 (amended): whenever encoding succeeds — that is, `btoa` accepts the
JSON serialization because every code unit is at most 255 — decoding the
produced token (`atob` of `decodeURIComponent`, then `JSON.parse`)
yields the original schedule's JSON value, and reading the fields the
component uses gives back a schedule equal to the original.  For
schedules whose serialization contains a code unit above 255, `btoa`
throws and no token is produced. -/
theorem C1_round_trip (s : Schedule) (t : List Nat)
    (henc : encodeSchedule s = some t) :
    decodeToken t = some (scheduleToJson s)
      ∧ jsonToSchedule (scheduleToJson s) = some s :=
  decode_encode_schedule s t henc

/-- C1 counterexample to the claim as stated: a structurally valid
schedule whose `object_category` contains the code unit 26085 (a CJK
character) cannot be encoded at all — `btoa` throws — so
`decode(encode(s))` does not yield `s` for every valid schedule. -/
theorem C1_counterexample :
    validSchedule ⟨0, [⟨[26085], lit "x", 1⟩]⟩ = true
      ∧ encodeSchedule ⟨0, [⟨[26085], lit "x", 1⟩]⟩ = none := by
  constructor
  · decide
  · rfl

theorem C1_witness :
    decodeToken (uriEncodeL (btoaGroups (stringifyJson (scheduleToJson
        ⟨0, [⟨lit "Mug", lit "m1", 3⟩]⟩))))
        = some (scheduleToJson ⟨0, [⟨lit "Mug", lit "m1", 3⟩]⟩)
      ∧ jsonToSchedule (scheduleToJson ⟨0, [⟨lit "Mug", lit "m1", 3⟩]⟩)
        = some ⟨0, [⟨lit "Mug", lit "m1", 3⟩]⟩ :=
  C1_round_trip ⟨0, [⟨lit "Mug", lit "m1", 3⟩]⟩ _ (by rfl)

/-- C2 (amended): in one-shot mode a successful submission terminates the
session (Prolific completion redirect or navigation to `/done`) exactly
when the cursor is on the schedule's last task; when further tasks
remain, the submission advances the cursor instead, exactly as in batch
mode. -/
theorem C2_oneshot (p : QueryParams) (s : Schedule) (h : oneshotFlag p = true) :
    (isTerminal (onFormSubmit p s) = true ↔ s.idx + 1 = (s.annotations.length : Int))
      ∧ (s.idx + 1 ≠ (s.annotations.length : Int) →
          onFormSubmit p s = .advance { s with idx := s.idx + 1 }) := by
  constructor
  · by_cases hlast : s.idx + 1 = (s.annotations.length : Int)
    · simp only [onFormSubmit, hlast, reduceIte, h, Bool.not_true, Bool.false_eq_true,
        if_false, iff_true]
      cases hp : p.prolific_code <;> simp [isTerminal]
    · simp [onFormSubmit, hlast, isTerminal]
  · intro hne
    simp [onFormSubmit, hne]

/-- C2 counterexample to the claim as stated: in one-shot mode, with an
active two-task schedule whose cursor is on the first task, one
submission does not reach a terminal outcome — it advances the cursor. -/
theorem C2_counterexample :
    oneshotFlag ⟨some "true", none, none⟩ = true
      ∧ validSchedule ⟨0, [⟨lit "Mug", lit "m1", 1⟩, ⟨lit "Pan", lit "p1", 2⟩]⟩ = true
      ∧ onFormSubmit ⟨some "true", none, none⟩
          ⟨0, [⟨lit "Mug", lit "m1", 1⟩, ⟨lit "Pan", lit "p1", 2⟩]⟩
          = .advance ⟨1, [⟨lit "Mug", lit "m1", 1⟩, ⟨lit "Pan", lit "p1", 2⟩]⟩
      ∧ isTerminal (onFormSubmit ⟨some "true", none, none⟩
          ⟨0, [⟨lit "Mug", lit "m1", 1⟩, ⟨lit "Pan", lit "p1", 2⟩]⟩) = false := by
  refine ⟨rfl, by decide, rfl, rfl⟩

theorem C2_witness :
    isTerminal (onFormSubmit ⟨some "true", none, none⟩
      ⟨0, [⟨lit "Mug", lit "m1", 1⟩]⟩) = true :=
  (C2_oneshot ⟨some "true", none, none⟩ ⟨0, [⟨lit "Mug", lit "m1", 1⟩]⟩ rfl).1.mpr (by decide)

/-- C3: submitting an answer id that is already in `submittedAnswers` is a
no-op: the submit control is disabled for it, so the quiz state —
`correctAnswers` included — is unchanged. -/
theorem C3_idempotent (s : QuizState) (a : String)
    (hsel : s.selectedAnswer = some a) (hmem : a ∈ s.submittedAnswers) :
    clickSubmit s = s := by
  unfold clickSubmit submitDisabled
  rw [hsel]
  simp [hmem]

theorem C3_witness :
    clickSubmit ⟨0, some "b", true, ["b"], 1⟩ = ⟨0, some "b", true, ["b"], 1⟩ :=
  C3_idempotent ⟨0, some "b", true, ["b"], 1⟩ "b" rfl (by decide)

/-- C4 (amended): the decode effect is not uniformly safe.  A token that
fails URI, base64 or JSON decoding crashes the effect (uncaught
exception) rather than producing an `InvalidToken` rejection; a token
that parses to an object with a numeric `idx` and an array
`annotations` is rejected with the "Invalid schedule index!" alert
(schedule left unset) exactly on an out-of-bounds cursor; and a
parseable token missing required fields — here the `idx` field — is
accepted as the active schedule even though it is not structurally
valid. -/
theorem C4_amended :
    (∀ t : List Nat, decodeToken t = none → scheduleEffect t = .crash)
      ∧ (∀ (t : List Nat) (j : Json) (n : Int) (xs : JsonList),
          decodeToken t = some j →
          propAccess j (lit "idx") = some (some (.num n)) →
          propAccess j (lit "annotations") = some (some (.arr xs)) →
          ((jsonListLength xs : Int) ≤ n ∨ n < 0) →
          scheduleEffect t = .invalidAlert)
      ∧ (scheduleEffect (uriEncodeL (btoaGroups (stringifyJson
            (.obj (.cons (lit "annotations")
              (.arr (.cons (annotationToJson ⟨lit "Mug", lit "m1", 1⟩) .nil)) .nil)))))
          = .accepted (.obj (.cons (lit "annotations")
              (.arr (.cons (annotationToJson ⟨lit "Mug", lit "m1", 1⟩) .nil)) .nil))
          ∧ jsonToSchedule (.obj (.cons (lit "annotations")
              (.arr (.cons (annotationToJson ⟨lit "Mug", lit "m1", 1⟩) .nil)) .nil)) = none) := by
  refine ⟨?_, ?_, by rfl, by rfl⟩
  · intro t h
    simp [scheduleEffect, h]
  · intro t j n xs h1 h2 h3 h4
    have hcond : (jsGe (jsToNumber (some (.num n))) (some ((jsonListLength xs : Nat) : Int))
        || jsLt (jsToNumber (some (.num n))) (some 0)) = true := by
      simp only [jsToNumber, jsGe, jsLt, Bool.or_eq_true, decide_eq_true_eq]
      omega
    simp [scheduleEffect, h1, effectOfJson, h2, h3, jsLengthOf, hcond]

/-- C4 counterexample to the claim as stated: the token `!!!` does not
decode to a structurally valid schedule, and instead of a safe
`InvalidToken` rejection the effect crashes with an uncaught exception
(`atob` throws). -/
theorem C4_counterexample : scheduleEffect (lit "!!!") = EffectOutcome.crash := rfl

theorem C4_witness :
    scheduleEffect (lit "a") = EffectOutcome.crash
      ∧ scheduleEffect (uriEncodeL (btoaGroups (stringifyJson
          (.obj (.cons (lit "idx") (.num 5)
            (.cons (lit "annotations") (.arr .nil) .nil))))))
        = EffectOutcome.invalidAlert :=
  ⟨C4_amended.1 (lit "a") (by rfl),
    C4_amended.2.1 _
      (.obj (.cons (lit "idx") (.num 5) (.cons (lit "annotations") (.arr .nil) .nil)))
      5 .nil (by rfl) (by rfl) (by rfl) (by decide)⟩

/-- Helper for C5: iterating the advance branch `j` times moves the
cursor forward by exactly `j` and leaves the task list unchanged. -/
theorem submitN_advance (p : QueryParams) : ∀ (j : Nat) (s : Schedule),
    s.idx + j < (s.annotations.length : Int) →
    submitN p j s = some ⟨s.idx + j, s.annotations⟩ := by
  intro j
  induction j with
  | zero =>
    intro s _
    simp [submitN]
  | succ j ih =>
    intro s h
    have hne : s.idx + 1 ≠ (s.annotations.length : Int) := by
      push_cast at h
      omega
    have hstep : onFormSubmit p s = .advance ⟨s.idx + 1, s.annotations⟩ := by
      simp [onFormSubmit, hne]
    have hbound : (⟨s.idx + 1, s.annotations⟩ : Schedule).idx + (j : Int)
        < ((⟨s.idx + 1, s.annotations⟩ : Schedule).annotations.length : Int) := by
      push_cast at h ⊢
      omega
    rw [submitN, hstep]
    show submitN p j ⟨s.idx + 1, s.annotations⟩ = _
    rw [ih ⟨s.idx + 1, s.annotations⟩ hbound]
    congr 2
    push_cast
    omega

/-- C5: in batch mode, every completed submission before the last task
re-persists (via `navigateToSchedule`) a schedule whose cursor is
exactly one larger, with the task list unchanged; across `k` such
submissions the cursor visits `idx, idx+1, …, idx+k` — it never skips
and never repeats an index. -/
theorem C5_monotone (p : QueryParams) (s : Schedule) (k : Nat)
    (hbatch : oneshotFlag p = false)
    (hvalid : validSchedule s = true)
    (hk : s.idx + k < (s.annotations.length : Int)) :
    ∀ j ≤ k, submitN p j s = some ⟨s.idx + j, s.annotations⟩ := by
  intro j hj
  apply submitN_advance
  have : (j : Int) ≤ (k : Int) := by exact_mod_cast hj
  omega

theorem C5_witness :
    submitN ⟨none, none, none⟩ 2
        ⟨0, [⟨lit "Mug", lit "m1", 1⟩, ⟨lit "Pan", lit "p1", 2⟩, ⟨lit "Cup", lit "c1", 3⟩]⟩
      = some ⟨2, [⟨lit "Mug", lit "m1", 1⟩, ⟨lit "Pan", lit "p1", 2⟩, ⟨lit "Cup", lit "c1", 3⟩]⟩ := by
  have h := C5_monotone ⟨none, none, none⟩
    ⟨0, [⟨lit "Mug", lit "m1", 1⟩, ⟨lit "Pan", lit "p1", 2⟩, ⟨lit "Cup", lit "c1", 3⟩]⟩ 2
    rfl (by decide) (by decide) 2 le_rfl
  simpa using h

/-- C6: on the final quiz question, the continue action goes to the
passed state (navigation into the main workflow) iff
`correctAnswers / QUESTIONS.length` is at least 0.5; below the
threshold it goes to the Prolific rejection redirect when a rejection
code is configured and otherwise to the delayed generic termination
page. -/
theorem C6_threshold (p : QueryParams) (s : QuizState)
    (hfinal : s.currentQuestionIdx = QUESTIONS.length - 1) :
    ((s.correctAnswers : ℚ) / (QUESTIONS.length : ℚ) ≥ 0.5 →
        handleContinue p s = .passed)
      ∧ ((s.correctAnswers : ℚ) / (QUESTIONS.length : ℚ) < 0.5 →
          (p.prolific_rejection_code = none →
            handleContinue p s = .rejectedDelayedDone)
            ∧ (∀ c, p.prolific_rejection_code = some c →
                handleContinue p s = .rejectedRedirect c)) := by
  unfold handleContinue
  rw [if_pos hfinal]
  constructor
  · intro h
    rw [if_pos h]
  · intro h
    rw [if_neg (by exact not_le.mpr h)]
    constructor
    · intro hc
      rw [hc]
    · intro c hc
      rw [hc]

theorem C6_witness :
    handleContinue ⟨none, none, none⟩ ⟨1, none, true, [], 2⟩ = .passed
      ∧ handleContinue ⟨none, none, some "REJ"⟩ ⟨1, none, true, [], 0⟩
        = .rejectedRedirect "REJ" :=
  ⟨(C6_threshold ⟨none, none, none⟩ ⟨1, none, true, [], 2⟩ rfl).1 (by norm_num [QUESTIONS]),
    ((C6_threshold ⟨none, none, some "REJ"⟩ ⟨1, none, true, [], 0⟩ rfl).2
      (by norm_num [QUESTIONS])).2 "REJ" rfl⟩

/-- C7: a 204 response of the next-task endpoint is the exhaustion
signal — the component alerts and navigates to the done page
(termination); every other non-2xx status only alerts and re-enables the
fetch control, a retryable error that does not terminate the session. -/
theorem C7_exhaustion (r : FetchResponse) :
    (r.status = 204 → fetchObjectInfo r = .doneNavigate)
      ∧ (¬(200 ≤ r.status ∧ r.status ≤ 299) → fetchObjectInfo r = .errorAlert) := by
  constructor
  · intro h
    simp [fetchObjectInfo, responseOk, h]
  · intro h
    have hok : responseOk r = false := by
      simp only [responseOk, Bool.and_eq_false_iff, decide_eq_false_iff_not]
      omega
    simp [fetchObjectInfo, hok]

theorem C7_witness :
    fetchObjectInfo ⟨204, ⟨lit "Mug", lit "m1", 1⟩⟩ = .doneNavigate
      ∧ fetchObjectInfo ⟨500, ⟨lit "Mug", lit "m1", 1⟩⟩ = .errorAlert :=
  ⟨(C7_exhaustion ⟨204, ⟨lit "Mug", lit "m1", 1⟩⟩).1 rfl,
    (C7_exhaustion ⟨500, ⟨lit "Mug", lit "m1", 1⟩⟩).2 (by decide)⟩

/-- C8: the continuation after a submission does not depend on the
submission result — success, HTTP error and thrown network error all
proceed identically (reset-and-fetch in batch mode, termination in
one-shot mode) — and an error is reported to the user exactly when the
submission was not a success. -/
theorem C8_progression (cfg : FormConfig) (r : SubmitResult) :
    (formHandleSubmit cfg r).2 = (formHandleSubmit cfg .success).2
      ∧ ((formHandleSubmit cfg r).1 = true ↔ r ≠ .success) := by
  constructor
  · rfl
  · cases r <;> simp [formHandleSubmit, submitReported]

/-- C9: whenever the continue action is available at all (the button is
rendered), the current question's correct answer id is already among the
submitted answers — the learner cannot advance past a question without
having submitted its correct answer. -/
theorem C9_gate (p : QueryParams) (s : QuizState) (r : ContinueOutcome)
    (h : clickContinue p s = some r) :
    ∃ a, (currentQuestion s).answers.find? (fun an => an.correct) = some a
      ∧ a.id ∈ s.submittedAnswers := by
  unfold clickContinue at h
  by_cases hc : continueShown s = true
  · unfold continueShown at hc
    rcases hm : correctId (currentQuestion s) with _ | i
    · rw [hm] at hc
      simp at hc
    · rw [hm] at hc
      simp only [Bool.and_eq_true, decide_eq_true_eq] at hc
      obtain ⟨an, hfind, hid⟩ := Option.map_eq_some'.mp hm
      exact ⟨an, hfind, hid ▸ hc.2⟩
  · rw [if_neg hc] at h
    simp at h

theorem C9_witness :
    ∃ a, (currentQuestion ⟨0, some "b", true, ["b"], 1⟩).answers.find?
        (fun an => an.correct) = some a
      ∧ a.id ∈ (⟨0, some "b", true, ["b"], 1⟩ : QuizState).submittedAnswers :=
  C9_gate ⟨none, none, none⟩ ⟨0, some "b", true, ["b"], 1⟩
    (.nextQuestion ⟨1, none, false, [], 1⟩) (by rfl)

/-- C10: the presence of a `prolific_code` query parameter alone puts the
session into one-shot mode — whatever the `oneshot` parameter holds —
so the fetch control is hidden, and completing the schedule's last task
redirects to the external Prolific completion URL instead of fetching
another task. -/
theorem C10_prolific (p : QueryParams) (c : String) (s : Schedule)
    (hp : p.prolific_code = some c) :
    oneshotFlag p = true
      ∧ fetchMeshButtonHidden p = true
      ∧ (s.idx + 1 = (s.annotations.length : Int) →
          onFormSubmit p s = .prolificRedirect c) := by
  have h1 : oneshotFlag p = true := by
    simp [oneshotFlag, hp]
  refine ⟨h1, h1, ?_⟩
  intro hlast
  simp [onFormSubmit, hlast, h1, hp]

theorem C10_witness :
    oneshotFlag ⟨none, some "ABC", none⟩ = true
      ∧ fetchMeshButtonHidden ⟨none, some "ABC", none⟩ = true
      ∧ onFormSubmit ⟨none, some "ABC", none⟩ ⟨0, [⟨lit "Mug", lit "m1", 1⟩]⟩
        = .prolificRedirect "ABC" := by
  obtain ⟨h1, h2, h3⟩ := C10_prolific ⟨none, some "ABC", none⟩ "ABC"
    ⟨0, [⟨lit "Mug", lit "m1", 1⟩]⟩ rfl
  exact ⟨h1, h2, h3 (by decide)⟩
